import Mathlib

/-!
Verification of the zorm entity generator (`MySqlDriver` in
`src/drivers/mysql/index.ts`).  The generator reads a catalog snapshot of a
MySQL schema (tables, columns, foreign keys) and emits one TypeScript entity
module per table plus an aggregate entry module.  This file gives a shallow
embedding of the pure core of that code: the type mapper `mapColumns`, the
naming helpers `toPascalCase` / `isNumber`, the relation-graph construction
(inverse relations and junction-table detection) and the per-table emission
loop of `generate`, modelled as pure functions over a `Catalog` value.  The
effectful run (pooled connection, introspection queries that can fail) is
modelled by `generateRun` over a `Db` oracle whose reads return `Except`.
-/

namespace Zorm

/-- The single-quote character, written via its code point. -/
def sqc : Char := Char.ofNat 39

/-- Character class `\w` of the JS regexes used by the generator. -/
def isWordChar (c : Char) : Bool := c.isAlphanum || c == '_'

/-- Tail of `toPascalCase`: the global regex scan for `_\w` matches at
positions past the start, replacing an underscore-plus-word-char by the
upper-cased word char. -/
def pascalTail : List Char → List Char
  | [] => []
  | [c] => [c]
  | c1 :: c2 :: rest =>
      if c1 == '_' && isWordChar c2 then c2.toUpper :: pascalTail rest
      else c1 :: pascalTail (c2 :: rest)

/-- The full regex scan of `toPascalCase`: at position 0 the alternative
`^\w` applies (a leading underscore is deleted, any other word char is
upper-cased), then `pascalTail` scans the remainder. -/
def pascalChars : List Char → List Char
  | [] => []
  | c :: rest =>
      if isWordChar c then
        (if c == '_' then [] else [c.toUpper]) ++ pascalTail rest
      else
        c :: pascalTail rest

/-- `toPascalCase` from `src/core/index.ts`:
`str.replace(/(^\w|_\w)/g, m => m.replace("_", "").toUpperCase())`. -/
def toPascalCase (s : String) : String :=
  String.mk (pascalChars s.data)

/-- Split a character list at every occurrence of `sep`; mirrors
JS `String.prototype.split` with a one-character separator
(so the empty input yields one empty field). -/
def splitOnC (sep : Char) : List Char → List (List Char)
  | [] => [[]]
  | c :: rest =>
      if c == sep then [] :: splitOnC sep rest
      else
        match splitOnC sep rest with
        | [] => [[c]]
        | g :: gs => (c :: g) :: gs

/-- The optional `[+-]?` sign of the `isNumber` regex. -/
def stripSign : List Char → List Char
  | c :: rest => if c == '+' || c == '-' then rest else c :: rest
  | [] => []

/-- `isNumber` from `src/core/index.ts`: the regex `^[+-]?\d+(\.\d+)?$`. -/
def isNumber (s : String) : Bool :=
  match splitOnC (Char.ofNat 46) (stripSign s.data) with
  | [a] => !a.isEmpty && a.all Char.isDigit
  | [a, b] => !a.isEmpty && a.all Char.isDigit && !b.isEmpty && b.all Char.isDigit
  | _ => false

/-- JS `String.prototype.trim` on a character list (whitespace at both ends;
we use Lean's ASCII whitespace class, which covers the whitespace occurring in
catalog metadata). -/
def trimChars (l : List Char) : List Char :=
  ((l.dropWhile Char.isWhitespace).reverse.dropWhile Char.isWhitespace).reverse

/-- The `replace(/^'|'$/g, "")` step of enum-literal extraction: remove one
leading and one trailing single quote, if present. -/
def stripQ (l : List Char) : List Char :=
  let l1 := match l with
    | c :: t => if c == sqc then t else l
    | [] => l
  match l1.reverse with
  | c :: t => if c == sqc then t.reverse else l1
  | [] => l1

/-- Is `needle` a prefix of `hay` (used to express substring search)? -/
def prefixHere : List Char → List Char → Bool
  | [], _ => true
  | _ :: _, [] => false
  | a :: as, b :: bs => a == b && prefixHere as bs

/-- JS `String.prototype.includes`: does `needle` occur in `hay`? -/
def hasSub (hay needle : List Char) : Bool :=
  if prefixHere needle hay then true
  else
    match hay with
    | [] => false
    | _ :: t => hasSub t needle

/-- The `if (!list.includes(x)) list.push(x)` idiom used throughout
`generate` for import accumulation. -/
def pushUnique (l : List String) (x : String) : List String :=
  if l.contains x then l else l ++ [x]

/-- The pluralization used for inverse and many-to-many property names:
`t.endsWith("s") ? t : t + "s"`. -/
def pluralize (s : String) : String :=
  match s.data.getLast? with
  | some c => if c == 's' then s else s ++ "s"
  | none => s ++ "s"

/-- Leading `\w+` run of a type string and the remainder, for the regex
`^(\w+)(?:\((\d+)\))?` in `mapColumns`. An empty run means the regex fails. -/
def wordSplit (l : List Char) : List Char × List Char :=
  (l.takeWhile isWordChar, l.dropWhile isWordChar)

/-- Decimal value of a digit list (the `parseInt(m, 10)` of `mapColumns`). -/
def digitsToNat (l : List Char) : Nat :=
  l.foldl (fun n c => n * 10 + (c.toNat - 48)) 0

/-- The optional `\((\d+)\)` group directly after the base keyword: a
parenthesized digit run, anything after it being ignored by the regex. -/
def parseLen (l : List Char) : Option Nat :=
  match l with
  | '(' :: rest =>
      let ds := rest.takeWhile Char.isDigit
      let rest2 := rest.dropWhile Char.isDigit
      if ds.isEmpty then none
      else match rest2 with
        | ')' :: _ => some (digitsToNat ds)
        | _ => none
  | _ => none

/-- The `^enum\((.*)\)$` (case-insensitive) match of `mapColumns`: `some`
of the parenthesized content when the type string is an inline enum
declaration. JS `.` does not match a line break, hence the newline check. -/
def enumInner (s : String) : Option (List Char) :=
  match s.data with
  | c1 :: c2 :: c3 :: c4 :: c5 :: rest =>
      if c1.toLower == 'e' && c2.toLower == 'n' && c3.toLower == 'u' &&
         c4.toLower == 'm' && c5 == '(' then
        match rest.reverse with
        | cn :: midRev =>
            if cn == ')' then
              let mid := midRev.reverse
              if mid.all (fun c => !(c == '\n' || c == '\r')) then some mid else none
            else none
        | [] => none
      else none
  | _ => none

/-- Result record of `mapColumns` (the type mapper):
`{ tsType, columnType, length?, enumValues?, transformer? }`. -/
structure MappedType where
  tsType : String
  columnType : String
  length : Option Nat
  enumValues : Option (List String)
  transformer : Option String
  deriving Repr, DecidableEq

/-- The fixed `typeMap` table of `mapColumns`. -/
def typeMap : String → Option MappedType
  | "int" => some ⟨"number", "int", none, none, none⟩
  | "tinyint" => some ⟨"boolean", "tinyint", none, none, some "BooleanTransformer"⟩
  | "smallint" => some ⟨"number", "smallint", none, none, none⟩
  | "mediumint" => some ⟨"number", "mediumint", none, none, none⟩
  | "bigint" => some ⟨"string", "bigint", none, none, some "BigIntTransformer"⟩
  | "decimal" => some ⟨"number", "decimal", none, none, none⟩
  | "float" => some ⟨"number", "float", none, none, none⟩
  | "double" => some ⟨"number", "double", none, none, none⟩
  | "varchar" => some ⟨"string", "varchar", some 255, none, none⟩
  | "char" => some ⟨"string", "char", some 1, none, none⟩
  | "tinytext" => some ⟨"string", "tinytext", none, none, none⟩
  | "text" => some ⟨"string", "text", none, none, none⟩
  | "mediumtext" => some ⟨"string", "mediumtext", none, none, none⟩
  | "longtext" => some ⟨"string", "longtext", none, none, none⟩
  | "datetime" => some ⟨"Date", "datetime", none, none, none⟩
  | "timestamp" => some ⟨"Date", "timestamp", none, none, none⟩
  | "date" => some ⟨"Date", "date", none, none, none⟩
  | "time" => some ⟨"string", "time", none, none, none⟩
  | "json" => some ⟨"any", "json", none, none, none⟩
  | _ => none

/-- `MySqlDriver.mapColumns`: the pure type mapper. Enum types are parsed
into their literal list; otherwise the leading keyword is looked up in
`typeMap` (falling back to `{ tsType: "any", columnType: baseType }`), and a
length is kept only for base keywords containing "char", JS falsiness making
an explicit `(0)` fall back to the table default. A type string that does not
start with a word character yields `{ tsType: "any", columnType: "text" }`.
`mapBase` is the non-enum path, on the two regex groups. -/
def mapBase (baseRaw rest : List Char) : MappedType :=
  if baseRaw.isEmpty then
    { tsType := "any", columnType := "text", length := none,
      enumValues := none, transformer := none }
  else
    let baseType := String.mk (baseRaw.map Char.toLower)
    let explicitLen := parseLen rest
    let config := (typeMap baseType).getD
      { tsType := "any", columnType := baseType, length := none,
        enumValues := none, transformer := none }
    { config with
      length :=
        if hasSub baseType.data ['c', 'h', 'a', 'r'] then
          match explicitLen with
          | some n => if n == 0 then config.length else some n
          | none => config.length
        else none }

/-- `MySqlDriver.mapColumns`: enum detection first, otherwise `mapBase` on
the groups of `^(\w+)(?:\((\d+)\))?`. -/
def mapColumns (sqlType : String) : MappedType :=
  match enumInner sqlType with
  | some inner =>
      let enumValues := (splitOnC ',' inner).map (fun v => String.mk (stripQ (trimChars v)))
      { tsType := "\"" ++ String.intercalate "\" | \"" enumValues ++ "\"",
        columnType := "enum", length := none,
        enumValues := some enumValues, transformer := none }
  | none =>
      mapBase (wordSplit sqlType.data).1 (wordSplit sqlType.data).2

/-- Enum member-name derivation from `generate`:
`isNumber(v) ? "val" + v : toPascalCase(v)`. -/
def memberName (v : String) : String :=
  if isNumber v then "val" ++ v else toPascalCase v

/-- Character-level body of `validIdent`. -/
def validIdentChars : List Char → Bool
  | [] => false
  | c :: rest =>
      (c.isAlpha || c == '_' || c == '$') &&
      rest.all (fun d => d.isAlphanum || d == '_' || d == '$')

/-- A valid (ASCII) TypeScript identifier: nonempty, starting with a letter,
underscore or dollar sign, the rest alphanumeric, underscore or dollar. -/
def validIdent (s : String) : Bool :=
  validIdentChars s.data

/-- Substring test on strings (JS `includes`). -/
def hasSubStr (hay needle : String) : Bool := hasSub hay.data needle.data

/-- JS `String(Number(value))` as used by `formatDefault` for numeric
defaults, exact for the integer and plain-decimal literals that occur as
column defaults (hexadecimal and exponent forms, which do not occur in
catalog defaults, render as NaN here). -/
def jsNumberString (s : String) : String :=
  let t := trimChars s.data
  if t.isEmpty then "0"
  else
    let (neg, body) := match t with
      | '+' :: r => (false, r)
      | '-' :: r => (true, r)
      | _ => (false, t)
    match splitOnC (Char.ofNat 46) body with
    | [a] =>
        if !a.isEmpty && a.all Char.isDigit then
          let a1 := a.dropWhile (fun c => c == '0')
          if a1.isEmpty then "0"
          else (if neg then "-" else "") ++ String.mk a1
        else "NaN"
    | [a, b] =>
        if a.all Char.isDigit && b.all Char.isDigit && !(a.isEmpty && b.isEmpty) then
          let a1 := a.dropWhile (fun c => c == '0')
          let b1 := (b.reverse.dropWhile (fun c => c == '0')).reverse
          if b1.isEmpty then
            (if a1.isEmpty then "0" else (if neg then "-" else "") ++ String.mk a1)
          else
            (if neg then "-" else "") ++ (if a1.isEmpty then "0" else String.mk a1) ++
              "." ++ String.mk b1
        else "NaN"
    | _ => "NaN"

/-- `MySqlDriver.formatDefault`: renders a column default per logical type
(number unquoted via `Number(value)`, boolean as `true`/`false` from `"1"`,
anything else double-quoted). -/
def formatDefault (value tsType : String) : String :=
  if tsType == "number" then jsNumberString value
  else if tsType == "boolean" then (if value == "1" then "true" else "false")
  else "\"" ++ value ++ "\""

/-- One column row of the catalog, as selected by `generate`'s
INFORMATION_SCHEMA query (aliases `Field`, `Type`, `Key`, `Null`, `Default`,
`Extra`, `Comment`). -/
structure Col where
  field : String
  colType : String
  colKey : String
  isNull : String
  defaultVal : Option String
  extra : String
  comment : String
  deriving Repr, DecidableEq

/-- One foreign-key row (`COLUMN_NAME`, `REFERENCED_TABLE_NAME`,
`REFERENCED_COLUMN_NAME`). -/
structure Fk where
  column : String
  referencedTable : String
  referencedColumn : String
  deriving Repr, DecidableEq

/-- A table of the catalog snapshot: its name, its columns in ordinal order,
and its declared foreign keys in catalog order. -/
structure Table where
  name : String
  columns : List Col
  fks : List Fk
  deriving Repr, DecidableEq

/-- The catalog snapshot: the tables in `SHOW TABLES` order. -/
abbrev Catalog := List Table

/-- One entry of the `inverseRelations` accumulator of `generate`:
`{ fkColumn, fkPropName, targetTable, targetEntity }` (where `targetTable`
is the *referencing* table, as in the source). -/
structure InvRel where
  fkColumn : String
  fkPropName : String
  targetTable : String
  targetEntity : String
  deriving Repr, DecidableEq

/-- `inverseRelations[target]`: one entry per foreign key of any table
referencing `target`, in catalog order (tables outer, keys inner). -/
def inverseRelations (cat : Catalog) (target : String) : List InvRel :=
  cat.flatMap (fun t =>
    (t.fks.filter (fun fk => fk.referencedTable == target)).map (fun fk =>
      { fkColumn := fk.column,
        fkPropName := "fk" ++ toPascalCase fk.referencedTable,
        targetTable := t.name,
        targetEntity := toPascalCase t.name }))

/-- One entry of the `junctionTables` map: the two referenced tables after
sorting, and the two foreign-key columns in declaration order. -/
structure Junction where
  left : String
  right : String
  leftCol : String
  rightCol : String
  deriving Repr, DecidableEq

/-- Lexicographic comparison by code units, as JS string `<` orders the
table names inside `Array.sort`. -/
def ltChars : List Char → List Char → Bool
  | [], [] => false
  | [], _ :: _ => true
  | _ :: _, [] => false
  | a :: as, b :: bs =>
      if a.toNat < b.toNat then true
      else if b.toNat < a.toNat then false
      else ltChars as bs

/-- JS default `Array.sort` of the two referenced-table names (stable, so an
equal pair keeps its order). -/
def sortPair (a b : String) : String × String :=
  if ltChars b.data a.data then (b, a) else (a, b)

/-- The junction-table test of `generate`: exactly two foreign keys, exactly
two columns, and no column outside the primary key. (Note: the code does not
require the two referenced tables to be distinct.) -/
def junctionPred (t : Table) : Bool :=
  t.fks.length == 2 && t.columns.length == 2 &&
    (t.columns.filter (fun c => c.colKey != "PRI")).isEmpty

/-- The deduplication key `` `${t1}_${t2}` `` of a junction candidate. -/
def junctionKey (t : Table) : String :=
  match t.fks with
  | [l, r] =>
      let p := sortPair l.referencedTable r.referencedTable
      p.1 ++ "_" ++ p.2
  | _ => ""

/-- One iteration of the junction-detection loop: a qualifying table inserts
its entry unless the key is already present. -/
def junctionStep (jt : List (String × Junction)) (t : Table) : List (String × Junction) :=
  if junctionPred t then
    match t.fks with
    | [l, r] =>
        let p := sortPair l.referencedTable r.referencedTable
        let key := p.1 ++ "_" ++ p.2
        if (jt.find? (fun e => e.1 == key)).isSome then jt
        else jt ++ [(key, { left := p.1, right := p.2, leftCol := l.column, rightCol := r.column })]
    | _ => jt
  else jt

/-- The `junctionTables` record after the detection loop, as an insertion
ordered key/value list. -/
def junctionTables (cat : Catalog) : List (String × Junction) :=
  cat.foldl junctionStep []

/-- `Object.values(junctionTables).filter(j => j.left === t || j.right === t)`:
the junction entries involving a table. -/
def junctionsFor (cat : Catalog) (tableName : String) : List Junction :=
  ((junctionTables cat).map Prod.snd).filter
    (fun j => j.left == tableName || j.right == tableName)

/-- The per-table mutable accumulators of `generate`'s emission loop:
`enums`, `imports`, `_imports` (here `mImports`), `entityCode`, `hasPrimary`. -/
structure EmitState where
  enums : List String
  imports : List String
  mImports : List String
  entityCode : List String
  hasPrimary : Bool
  deriving Repr, DecidableEq

/-- The accumulators before the column loop
(`_imports` starts as `[Entity, BaseEntity]`). -/
def initState : EmitState :=
  { enums := [], imports := [], mImports := ["Entity", "BaseEntity"],
    entityCode := [], hasPrimary := false }

/-- One iteration of the column loop of `generate`: enum registration,
primary/plain column decorator, optional comment line, and the field line. -/
def columnStep (st : EmitState) (c : Col) : EmitState :=
  let m := mapColumns c.colType
  let enumName : Option String :=
    match m.enumValues with
    | some _ => if m.columnType == "enum" then some (toPascalCase c.field) else none
    | none => none
  let enums1 := match enumName, m.enumValues with
    | some en, some vals =>
        st.enums ++ ["export enum " ++ en ++ " \x7b " ++
          String.intercalate ", " (vals.map (fun v => memberName v ++ " = \"" ++ v ++ "\"")) ++
          " \x7d"]
    | _, _ => st.enums
  let commentLines := if c.comment == "" then [] else ["\t/** @comment " ++ c.comment ++ " */"]
  let finalTsType :=
    match enumName with
    | some en => if en == "" then m.tsType else en
    | none => m.tsType
  let fieldLine := "\t" ++ c.field ++ "!: " ++ finalTsType ++ ";\n"
  if c.colKey == "PRI" then
    let pri := if hasSubStr c.extra "auto_increment" then "PrimaryGeneratedColumn"
               else "PrimaryColumn"
    let mi1 := pushUnique st.mImports pri
    match m.transformer with
    | some tr =>
        { st with
          enums := enums1,
          mImports := pushUnique mi1 tr,
          entityCode := st.entityCode ++
            ["\t@" ++ pri ++ "(\x7b transformer: new " ++ tr ++ "() \x7d)"] ++
            commentLines ++ [fieldLine],
          hasPrimary := true }
    | none =>
        { st with
          enums := enums1,
          mImports := mi1,
          entityCode := st.entityCode ++ ["\t@" ++ pri ++ "()"] ++ commentLines ++ [fieldLine],
          hasPrimary := true }
  else
    let mi1 := pushUnique st.mImports "Column"
    let mi2 := match m.transformer with
      | some tr => pushUnique mi1 tr
      | none => mi1
    let opts := ["type: \"" ++ m.columnType ++ "\""]
      ++ (match m.length with
          | some n => if n != 0 then ["length: " ++ toString n] else []
          | none => [])
      ++ (if c.isNull == "YES" then ["nullable: true"] else [])
      ++ (match enumName with
          | some en => if en == "" then [] else ["enum: " ++ en]
          | none => [])
      ++ (match c.defaultVal with
          | some d => ["default: " ++ formatDefault d m.tsType]
          | none => [])
      ++ (match m.transformer with
          | some tr => ["transformer: new " ++ tr ++ "()"]
          | none => [])
    { st with
      enums := enums1,
      mImports := mi2,
      entityCode := st.entityCode ++
        ["\t@Column(\x7b " ++ String.intercalate ", " opts ++ " \x7d)"] ++
        commentLines ++ [fieldLine] }

/-- The per-table import line for a referenced entity. -/
def fwdImportLine (fk : Fk) : String :=
  "import \x7b " ++ toPascalCase fk.referencedTable ++ " \x7d from \"./" ++
    fk.referencedTable ++ "\";"

/-- The three lines of a forward (one-to-one) relation. -/
def fwdBlock (fk : Fk) : List String :=
  let relatedEntity := toPascalCase fk.referencedTable
  ["\t@OneToOne(() => " ++ relatedEntity ++ ")",
   "\t@JoinColumn(\x7b name: \"" ++ fk.column ++ "\" \x7d)",
   "\tfk" ++ relatedEntity ++ "!: " ++ relatedEntity ++ ";\n"]

/-- One iteration of the forward-relation loop: the relation is emitted only
when the referenced table's import line is not already present. -/
def forwardStep (st : EmitState) (fk : Fk) : EmitState :=
  if st.imports.contains (fwdImportLine fk) then st
  else
    { st with
      entityCode := st.entityCode ++ fwdBlock fk,
      imports := st.imports ++ [fwdImportLine fk],
      mImports := pushUnique (pushUnique st.mImports "OneToOne") "JoinColumn" }

/-- One iteration of the inverse (one-to-many) loop, including its
`entityCode.some(line => line.includes(` ${propName}!:`))` duplicate guard. -/
def invStep (st : EmitState) (rel : InvRel) : EmitState :=
  let propName := pluralize rel.targetTable
  if st.entityCode.any (fun line => hasSubStr line (" " ++ propName ++ "!:")) then st
  else
    let importLine := "import \x7b " ++ rel.targetEntity ++ " \x7d from \"./" ++
      rel.targetTable ++ "\";"
    { st with
      imports := pushUnique st.imports importLine,
      mImports := pushUnique st.mImports "OneToMany",
      entityCode := st.entityCode ++
        ["\t@OneToMany(() => " ++ rel.targetEntity ++ ", r => r." ++ rel.fkPropName ++ ")",
         "\tfk" ++ toPascalCase propName ++ "!: " ++ rel.targetEntity ++ "[];\n"] }

/-- The many-to-many property field line aimed at table `t`:
`` `\tom${propName}!: ${targetEntity}[];\n` ``. -/
def omLine (t : String) : String :=
  "\tom" ++ pluralize t ++ "!: " ++ toPascalCase t ++ "[];\n"

/-- The three lines of a many-to-many relation aimed at `targetTable`. -/
def m2mBlock (targetTable : String) : List String :=
  let targetEntity := toPascalCase targetTable
  ["\t@ManyToMany(() => " ++ targetEntity ++ ")",
   "\t@JoinTable()",
   omLine targetTable]

/-- The partner table of a junction entry, as selected in the many-to-many
loop: `j.left === tableName ? j.right : j.left`. -/
def m2mTarget (tableName : String) (j : Junction) : String :=
  if j.left == tableName then j.right else j.left

/-- One iteration of the many-to-many loop, including its
`entityCode.some(line => line.includes(`@${propName}`))` guard. -/
def m2mStep (tableName : String) (st : EmitState) (j : Junction) : EmitState :=
  let targetTable := m2mTarget tableName j
  let targetEntity := toPascalCase targetTable
  let propName := pluralize targetTable
  if st.entityCode.any (fun line => hasSubStr line ("@" ++ propName)) then st
  else
    let importLine := "import \x7b " ++ targetEntity ++ " \x7d from \"./" ++
      targetTable ++ "\";"
    { st with
      imports := pushUnique st.imports importLine,
      mImports := pushUnique (pushUnique st.mImports "ManyToMany") "JoinTable",
      entityCode := st.entityCode ++ m2mBlock targetTable }

/-- Accumulator state after the column loop. -/
def afterColumns (t : Table) : EmitState :=
  t.columns.foldl columnStep initState

/-- Accumulator state after the forward-relation loop. -/
def afterForward (t : Table) : EmitState :=
  t.fks.foldl forwardStep (afterColumns t)

/-- Accumulator state after the inverse-relation loop. -/
def afterInverse (cat : Catalog) (t : Table) : EmitState :=
  (inverseRelations cat t.name).foldl invStep (afterForward t)

/-- Final accumulator state for one table (after the many-to-many loop). -/
def tableState (cat : Catalog) (t : Table) : EmitState :=
  (junctionsFor cat t.name).foldl (m2mStep t.name) (afterInverse cat t)

/-- The emitted module for one table, minus the four-line generation header:
framework import, per-entity imports, enum declarations, the `@Entity`
declaration and class body. -/
def tableBody (cat : Catalog) (t : Table) : List String :=
  let st := tableState cat t
  ["import \x7b " ++ String.intercalate ", " st.mImports ++ " \x7d from \"@zuzjs/orm\";",
   if st.imports.isEmpty then "" else String.intercalate "\n" st.imports,
   if st.enums.isEmpty then "" else String.intercalate "\n" st.enums,
   (if st.enums.isEmpty && st.imports.isEmpty then "" else "\n") ++
     "@Entity(\x7b name: \"" ++ t.name ++ "\" \x7d)",
   "export class " ++ toPascalCase t.name ++ " extends BaseEntity \x7b\n"]
  ++ st.entityCode ++ ["\x7d"]

/-- The full `Code` array written for one table, `ts` being the
timestamp interpolated into the header comment. -/
def tableCode (cat : Catalog) (t : Table) (ts : String) : List String :=
  ["/**", "* AutoGenerated by @zuzjs/orm.", "* @ " ++ ts, "*/"] ++ tableBody cat t

/-- The aggregate `index.ts` entry module. -/
def entryCode (cat : Catalog) : List String :=
  let names := cat.map (fun t => t.name)
  (names.map (fun n => "import \x7b " ++ toPascalCase n ++ " \x7d from \"./" ++ n ++ "\";"))
  ++ ["import Zorm from \"@zuzjs/orm\";",
      "import de from \"dotenv\";",
      "de.config()",
      "const zormEntities = [" ++ String.intercalate ", " (names.map toPascalCase) ++ "];",
      "const zorm = Zorm.get(",
      "\tprocess.env.DATABASE_URL!,",
      "\tzormEntities",
      ");",
      "zorm.connect(zormEntities);",
      "export default zorm",
      "export \x7b " ++ String.intercalate ", " (names.map toPascalCase) ++ " \x7d"]

/-- The missing-primary-key warning text for a table. -/
def warnMsg (tableName : String) : String :=
  "○ \"" ++ tableName ++ "\" does not have a primary column. Primary column is required."

/-- The files written by a successful run, with their line lists, and the
warnings raised. -/
structure GenOutput where
  files : List (String × List String)
  warnings : List String
  deriving Repr, DecidableEq

/-- The pure content of `MySqlDriver.generate` over a catalog snapshot: one
file per table plus the entry file, and one warning per table lacking a
primary-key column. -/
def generate (cat : Catalog) (ts : String) : GenOutput :=
  { files := cat.map (fun t => (t.name ++ ".ts", tableCode cat t ts)) ++
      [("index.ts", entryCode cat)],
    warnings := (cat.filter (fun t => !(tableState cat t).hasPrimary)).map
      (fun t => warnMsg t.name) }

/-- Recognizes the timestamp line `* @ ...` of the generation header. -/
def isTsLine (l : String) : Bool :=
  match l.data with
  | '*' :: ' ' :: '@' :: ' ' :: _ => true
  | _ => false

/-- Normalization that drops the header timestamp line from a file. -/
def stripTs (lines : List String) : List String :=
  lines.filter (fun l => !isTsLine l)

/-- The effect interface of a run: each introspection read either returns
rows or fails (a rejected query promise), and each `fs.writeFileSync` of an
output file either succeeds or throws. -/
structure Db where
  showTables : Except String (List String)
  fksOf : String → Except String (List Fk)
  colsOf : String → Except String (List Col)
  writeFile : String → Except String Unit

/-- Sequential awaiting of one query per table: the first rejection aborts
the whole run. -/
def exceptMapM (f : α → Except String β) : List α → Except String (List β)
  | [] => .ok []
  | a :: as =>
      match f a with
      | .error e => .error e
      | .ok b =>
          match exceptMapM f as with
          | .error e => .error e
          | .ok bs => .ok (b :: bs)

/-- The emission loop of `generate`: per table, the full column query
followed by the `writeFileSync` of that table's entity file; the first
rejection or throw aborts the run. -/
def emitLoop (db : Db) : List String → Except String (List (List Col))
  | [] => .ok []
  | n :: rest =>
      match db.colsOf n with
      | .error e => .error e
      | .ok cols =>
          match db.writeFile (n ++ ".ts") with
          | .error e => .error e
          | .ok _ =>
              match emitLoop db rest with
              | .error e => .error e
              | .ok colsRest => .ok (cols :: colsRest)

/-- The effectful shape of `MySqlDriver.generate`: `SHOW TABLES`, the
foreign-key query per table, the junction-scan column query per table, then
the emission loop (column query plus entity-file write per table), the
entry-file write — and `pool.end()`, the returned flag, which the source
reaches only after every prior step has succeeded (there is no try/finally
around any of them). -/
def generateRun (db : Db) (ts : String) : Except String GenOutput × Bool :=
  match db.showTables with
  | .error e => (.error e, false)
  | .ok names =>
      match exceptMapM db.fksOf names with
      | .error e => (.error e, false)
      | .ok fksList =>
          match exceptMapM db.colsOf names with
          | .error e => (.error e, false)
          | .ok _ =>
              match emitLoop db names with
              | .error e => (.error e, false)
              | .ok colsList =>
                  match db.writeFile "index.ts" with
                  | .error e => (.error e, false)
                  | .ok _ =>
                      let cat : Catalog := (names.zip (colsList.zip fksList)).map
                        (fun p => { name := p.1, columns := p.2.1, fks := p.2.2 })
                      (.ok (generate cat ts), true)

/-! Concrete catalog snapshots used to evaluate the generator at specific
inputs. -/

/-- A non-nullable `int` column with the given name, key role and extra. -/
def cInt (n k ex : String) : Col :=
  { field := n, colType := "int", colKey := k, isNull := "NO",
    defaultVal := none, extra := ex, comment := "" }

/-- Table `customer` with a single auto-increment primary key. -/
def customerT : Table :=
  { name := "customer", columns := [cInt "id" "PRI" "auto_increment"], fks := [] }

/-- Table `order` with two distinct foreign keys `a` and `b`, both
referencing `customer`. -/
def orderT : Table :=
  { name := "order",
    columns := [cInt "id" "PRI" "auto_increment", cInt "a" "" "", cInt "b" "" ""],
    fks := [⟨"a", "customer", "id"⟩, ⟨"b", "customer", "id"⟩] }

/-- Catalog with a table holding two foreign keys to the same target. -/
def cat2 : Catalog := [customerT, orderT]

/-- Table `t` with a plain primary key. -/
def tT : Table := { name := "t", columns := [cInt "id" "PRI" ""], fks := [] }

/-- Table `j`: two columns, both primary, two foreign keys — but both
referencing the same table `t`. -/
def jT : Table :=
  { name := "j", columns := [cInt "x" "PRI" "", cInt "y" "PRI" ""],
    fks := [⟨"x", "t", "id"⟩, ⟨"y", "t", "id"⟩] }

/-- Catalog with a self-referencing junction candidate. -/
def catJ : Catalog := [tT, jT]

/-- Table `a` (participant of a many-to-many pair). -/
def aT : Table := { name := "a", columns := [cInt "id" "PRI" ""], fks := [] }

/-- Table `b` (participant of a many-to-many pair). -/
def bT : Table := { name := "b", columns := [cInt "id" "PRI" ""], fks := [] }

/-- First junction table between `a` and `b`. -/
def joneT : Table :=
  { name := "jone", columns := [cInt "x" "PRI" "", cInt "y" "PRI" ""],
    fks := [⟨"x", "a", "id"⟩, ⟨"y", "b", "id"⟩] }

/-- Second junction table between the same pair `a`, `b`. -/
def jtwoT : Table :=
  { name := "jtwo", columns := [cInt "u" "PRI" "", cInt "v" "PRI" ""],
    fks := [⟨"u", "a", "id"⟩, ⟨"v", "b", "id"⟩] }

/-- Catalog in which the pair `a`, `b` is linked by two junction tables. -/
def cat4 : Catalog := [aT, bT, joneT, jtwoT]

/-- Table `a_b`, whose name collides with the pair `a`, `b_c` under the
underscore-joined deduplication key. -/
def abT : Table := { name := "a_b", columns := [cInt "id" "PRI" ""], fks := [] }

/-- Table `c`. -/
def cT : Table := { name := "c", columns := [cInt "id" "PRI" ""], fks := [] }

/-- Table `b_c`. -/
def bcT : Table := { name := "b_c", columns := [cInt "id" "PRI" ""], fks := [] }

/-- Junction table between `a_b` and `c` (dedup key `a_b_c`). -/
def jxT : Table :=
  { name := "jx", columns := [cInt "x" "PRI" "", cInt "y" "PRI" ""],
    fks := [⟨"x", "a_b", "id"⟩, ⟨"y", "c", "id"⟩] }

/-- Junction table between `a` and `b_c` (dedup key also `a_b_c`). -/
def jyT : Table :=
  { name := "jy", columns := [cInt "u" "PRI" "", cInt "v" "PRI" ""],
    fks := [⟨"u", "a", "id"⟩, ⟨"v", "b_c", "id"⟩] }

/-- Catalog in which two distinct pairs of tables share one junction key. -/
def catX : Catalog := [aT, abT, bcT, cT, jxT, jyT]

/-- Table `logs` without any primary-key column. -/
def noPkT : Table := { name := "logs", columns := [cInt "msg" "" ""], fks := [] }

/-- Catalog containing a table without a primary key. -/
def cat8 : Catalog := [customerT, noPkT]

/-- An introspection oracle whose `SHOW TABLES` query fails. -/
def failDb : Db :=
  { showTables := .error "connection lost",
    fksOf := fun _ => .ok [], colsOf := fun _ => .ok [],
    writeFile := fun _ => .ok () }

/-- An effect oracle whose every query succeeds but whose file writes throw:
the run reaches the emission loop and dies at the first `writeFileSync`. -/
def writeFailDb : Db :=
  { showTables := .ok ["t"],
    fksOf := fun _ => .ok [],
    colsOf := fun _ => .ok [cInt "id" "PRI" ""],
    writeFile := fun _ => .error "disk full" }

/-- Table `jthree`: a junction table between `a` and `c`, so that `a`
participates in two different junction pairs. -/
def jthreeT : Table :=
  { name := "jthree", columns := [cInt "p" "PRI" "", cInt "q" "PRI" ""],
    fks := [⟨"p", "a", "id"⟩, ⟨"q", "c", "id"⟩] }

/-- Catalog in which the pair `a`, `b` is linked by two junction tables and
`a` additionally participates in the junction pair `a`, `c`. -/
def catY : Catalog := [aT, bT, cT, joneT, jtwoT, jthreeT]

/-- Specification-side description of which foreign keys survive the forward
loop's import guard: the first foreign key per import line (equivalently, per
referenced table), scanning left to right. -/
def fwdKeep (seen : List String) : List Fk → List Fk
  | [] => []
  | fk :: rest =>
      if seen.contains (fwdImportLine fk) then fwdKeep seen rest
      else fk :: fwdKeep (seen ++ [fwdImportLine fk]) rest

/-- A single-quoted enum literal as characters. -/
def quoteLit (v : String) : List Char := sqc :: v.data ++ [sqc]

/-- The quoted, comma-separated literal list of an enum declaration. -/
def joinComma : List String → List Char
  | [] => []
  | [v] => quoteLit v
  | v :: rest => quoteLit v ++ ',' :: joinComma rest

/-- Specification-side constructor of a physical enum type string
`enum('v1','v2',...)` from its literal list. -/
def mkEnumType (vs : List String) : String :=
  String.mk (('e' :: 'n' :: 'u' :: 'm' :: '(' :: joinComma vs) ++ [')'])

end Zorm
namespace Zorm

theorem char_isUpper_iff {c : Char} : c.isUpper = true ↔ (65 ≤ c.toNat ∧ c.toNat ≤ 90) := by
  simp [Char.isUpper, UInt32.le_def, BitVec.le_def, Char.toNat, UInt32.toNat]

theorem char_isLower_iff {c : Char} : c.isLower = true ↔ (97 ≤ c.toNat ∧ c.toNat ≤ 122) := by
  simp [Char.isLower, UInt32.le_def, BitVec.le_def, Char.toNat, UInt32.toNat]

theorem char_isDigit_iff {c : Char} : c.isDigit = true ↔ (48 ≤ c.toNat ∧ c.toNat ≤ 57) := by
  simp [Char.isDigit, UInt32.le_def, BitVec.le_def, Char.toNat, UInt32.toNat]

theorem char_isAlpha_iff {c : Char} :
    c.isAlpha = true ↔ ((65 ≤ c.toNat ∧ c.toNat ≤ 90) ∨ (97 ≤ c.toNat ∧ c.toNat ≤ 122)) := by
  simp [Char.isAlpha, char_isUpper_iff, char_isLower_iff]

theorem char_isAlphanum_iff {c : Char} :
    c.isAlphanum = true ↔ ((65 ≤ c.toNat ∧ c.toNat ≤ 90) ∨ (97 ≤ c.toNat ∧ c.toNat ≤ 122) ∨
      (48 ≤ c.toNat ∧ c.toNat ≤ 57)) := by
  simp [Char.isAlphanum, char_isAlpha_iff, char_isDigit_iff]
  tauto

theorem char_toNat_ofNat_valid {m : Nat} (h : Nat.isValidChar m) : (Char.ofNat m).toNat = m := by
  rw [Char.ofNat, dif_pos h]
  rfl

theorem toUpper_toNat (c : Char) :
    (Char.toUpper c).toNat =
      if 97 ≤ c.toNat ∧ c.toNat ≤ 122 then c.toNat - 32 else c.toNat := by
  unfold Char.toUpper
  split
  case isTrue h =>
    rw [if_pos h]
    exact char_toNat_ofNat_valid (Or.inl (by omega))
  case isFalse h =>
    rw [if_neg h]

theorem toUpper_isAlpha {c : Char} (h : c.isAlpha = true) : (Char.toUpper c).isAlpha = true := by
  have h1 := char_isAlpha_iff.mp h
  rw [char_isAlpha_iff, toUpper_toNat]
  split <;> omega

theorem toUpper_isAlphanum {c : Char} (h : c.isAlphanum = true) :
    (Char.toUpper c).isAlphanum = true := by
  have h1 := char_isAlphanum_iff.mp h
  rw [char_isAlphanum_iff, toUpper_toNat]
  split <;> omega

theorem char_ne_of_toNat_ne {c d : Char} (h : c.toNat ≠ d.toNat) : (c == d) = false := by
  apply beq_eq_false_iff_ne.mpr
  intro he
  exact h (by rw [he])

theorem pascalTail_mem : ∀ (l : List Char), (∀ c ∈ l, isWordChar c = true) →
    ∀ d ∈ pascalTail l, d.isAlphanum = true ∨ d = '_' := by
  intro l
  induction l using pascalTail.induct with
  | case1 =>
      intro _ d hd
      simp [pascalTail] at hd
  | case2 c =>
      intro hw d hd
      simp [pascalTail] at hd
      subst hd
      have hcw := hw d (by simp)
      simp [isWordChar] at hcw
      rcases hcw with h | h
      · exact Or.inl h
      · exact Or.inr (by simpa using h)
  | case3 c1 c2 rest hc ih =>
      intro hw d hd
      rw [pascalTail, if_pos hc] at hd
      rcases List.mem_cons.mp hd with h | h
      · subst h
        have h2 : isWordChar c2 = true := hw c2 (by simp)
        simp [isWordChar] at h2
        rcases h2 with h2 | h2
        · exact Or.inl (toUpper_isAlphanum h2)
        · right
          have hc2 : c2 = '_' := by simpa using h2
          subst hc2
          decide
      · exact ih (fun c hcm => hw c (by simp [hcm])) d h
  | case4 c1 c2 rest hc ih =>
      intro hw d hd
      rw [pascalTail, if_neg hc] at hd
      rcases List.mem_cons.mp hd with h | h
      · subst h
        have h1 : isWordChar d = true := hw d (by simp)
        simp [isWordChar] at h1
        rcases h1 with h1 | h1
        · exact Or.inl h1
        · exact Or.inr (by simpa using h1)
      · exact ih (fun c hcm => hw c (by simp [hcm])) d h

theorem splitOnC_no_sep {sep : Char} : ∀ (l : List Char), (∀ c ∈ l, (c == sep) = false) →
    splitOnC sep l = [l] := by
  intro l
  induction l with
  | nil => intro _; rfl
  | cons c rest ih =>
      intro h
      have hc := h c (by simp)
      rw [splitOnC, if_neg (by simp [hc]), ih (fun d hd => h d (by simp [hd]))]

theorem splitOnC_append {sep : Char} : ∀ (l r : List Char), (∀ c ∈ l, (c == sep) = false) →
    splitOnC sep (l ++ sep :: r) = l :: splitOnC sep r := by
  intro l
  induction l with
  | nil =>
      intro r _
      rw [List.nil_append, splitOnC, if_pos (by simp)]
  | cons c rest ih =>
      intro r h
      have hc := h c (by simp)
      rw [List.cons_append, splitOnC, if_neg (by simp [hc]),
        ih r (fun d hd => h d (by simp [hd]))]

theorem mem_joinComma : ∀ (vs : List String) (c : Char), c ∈ joinComma vs →
    c = sqc ∨ c = ',' ∨ ∃ v ∈ vs, c ∈ v.data := by
  intro vs
  induction vs with
  | nil => intro c hc; simp [joinComma] at hc
  | cons v rest ih =>
      intro c hc
      cases rest with
      | nil =>
          simp [joinComma, quoteLit] at hc
          rcases hc with h | h | h
          · exact Or.inl h
          · exact Or.inr (Or.inr ⟨v, by simp, h⟩)
          · exact Or.inl h
      | cons w rest2 =>
          rw [show joinComma (v :: w :: rest2) = quoteLit v ++ ',' :: joinComma (w :: rest2) from rfl] at hc
          rcases List.mem_append.mp hc with h | h
          · simp [quoteLit] at h
            rcases h with h | h | h
            · exact Or.inl h
            · exact Or.inr (Or.inr ⟨v, by simp, h⟩)
            · exact Or.inl h
          · rcases List.mem_cons.mp h with h | h
            · exact Or.inr (Or.inl h)
            · rcases ih c h with h | h | ⟨u, hu, hcu⟩
              · exact Or.inl h
              · exact Or.inr (Or.inl h)
              · exact Or.inr (Or.inr ⟨u, by simp [hu], hcu⟩)

theorem quoteLit_no_comma (v : String) (h : ∀ c ∈ v.data, (c == ',') = false) :
    ∀ c ∈ quoteLit v, (c == ',') = false := by
  intro c hc
  simp [quoteLit] at hc
  rcases hc with h1 | h1 | h1
  · subst h1; decide
  · exact h c h1
  · subst h1; decide

theorem joinComma_split : ∀ (vs : List String),
    (∀ v ∈ vs, ∀ c ∈ v.data, (c == ',') = false) →
    splitOnC ',' (joinComma vs) = if vs.isEmpty then [[]] else vs.map quoteLit := by
  intro vs
  induction vs with
  | nil => intro _; rfl
  | cons v rest ih =>
      intro h
      cases rest with
      | nil =>
          rw [show joinComma [v] = quoteLit v from rfl]
          rw [splitOnC_no_sep (quoteLit v) (quoteLit_no_comma v (h v (by simp)))]
          rfl
      | cons w rest2 =>
          rw [show joinComma (v :: w :: rest2) = quoteLit v ++ ',' :: joinComma (w :: rest2) from rfl]
          rw [splitOnC_append (quoteLit v) _ (quoteLit_no_comma v (h v (by simp)))]
          rw [ih (fun u hu c hc => h u (by simp [hu]) c hc)]
          rfl

theorem trim_quoteLit (v : String) : trimChars (quoteLit v) = quoteLit v := by
  unfold trimChars quoteLit
  rw [List.cons_append, List.dropWhile_cons, if_neg (by decide)]
  rw [show (sqc :: (v.data ++ [sqc])).reverse = sqc :: (v.data.reverse ++ [sqc]) by simp]
  rw [List.dropWhile_cons, if_neg (by decide)]
  simp

theorem stripQ_quoteLit (v : String) : stripQ (quoteLit v) = v.data := by
  unfold stripQ quoteLit
  simp

theorem enumInner_mkEnumType (vs : List String)
    (hnl : ∀ c ∈ joinComma vs, (c == '\n' || c == '\r') = false) :
    enumInner (mkEnumType vs) = some (joinComma vs) := by
  unfold mkEnumType
  rw [show ((('e' :: 'n' :: 'u' :: 'm' :: '(' :: joinComma vs) ++ [')'])) =
    'e' :: 'n' :: 'u' :: 'm' :: '(' :: (joinComma vs ++ [')']) by simp]
  simp only [enumInner]
  rw [show (joinComma vs ++ [')']).reverse = ')' :: (joinComma vs).reverse by simp]
  have hall : (joinComma vs).reverse.reverse.all (fun c => !(c == '\n' || c == '\r')) = true := by
    rw [List.reverse_reverse]
    exact List.all_eq_true.mpr (fun c hc => by rw [hnl c hc]; rfl)
  simp only [List.reverse_reverse] at hall ⊢
  rw [if_pos (by decide), if_pos (by decide), if_pos hall]

theorem mapColumns_mkEnumType (vs : List String) (hne : vs.isEmpty = false)
    (hch : ∀ v ∈ vs, ∀ c ∈ v.data, (c == ',') = false ∧ (c == '\n') = false ∧ (c == '\r') = false) :
    (mapColumns (mkEnumType vs)).columnType = "enum" ∧
    (mapColumns (mkEnumType vs)).enumValues = some vs := by
  have hnl : ∀ c ∈ joinComma vs, (c == '\n' || c == '\r') = false := by
    intro c hc
    rcases mem_joinComma vs c hc with h | h | ⟨v, hv, hcv⟩
    · subst h; decide
    · subst h; decide
    · have h3 := hch v hv c hcv
      simp [h3.2.1, h3.2.2]
  have he := enumInner_mkEnumType vs hnl
  have hsplit := joinComma_split vs (fun v hv c hc => (hch v hv c hc).1)
  rw [if_neg (by simp [hne])] at hsplit
  unfold mapColumns
  rw [he]
  simp only [hsplit, List.map_map]
  constructor
  · trivial
  · show some (vs.map fun v => String.mk (stripQ (trimChars (quoteLit v)))) = some vs
    congr 1
    conv_rhs => rw [show vs = vs.map id from (List.map_id vs).symm]
    apply List.map_congr_left
    intro v _
    rw [trim_quoteLit, stripQ_quoteLit]
    rfl

theorem isNumber_digits (v : String) (hne : v.data ≠ []) (hd : ∀ c ∈ v.data, c.isDigit = true) :
    isNumber v = true := by
  unfold isNumber
  have hsign : stripSign v.data = v.data := by
    cases hv : v.data with
    | nil => rfl
    | cons c rest =>
        have hcd := hd c (by rw [hv]; simp)
        have hq := char_isDigit_iff.mp hcd
        rw [stripSign, if_neg]
        simp only [Bool.or_eq_true, not_or]
        constructor
        · simp [char_ne_of_toNat_ne (show c.toNat ≠ ('+').toNat by
            rw [show ('+').toNat = 43 from rfl]; omega)]
        · simp [char_ne_of_toNat_ne (show c.toNat ≠ ('-').toNat by
            rw [show ('-').toNat = 45 from rfl]; omega)]
  rw [hsign]
  have hnodot : ∀ d ∈ v.data, (d == Char.ofNat 46) = false := by
    intro d hdm
    have hq := char_isDigit_iff.mp (hd d hdm)
    exact char_ne_of_toNat_ne (by rw [show (Char.ofNat 46).toNat = 46 from rfl]; omega)
  rw [splitOnC_no_sep v.data hnodot]
  simp [List.isEmpty_iff, hne, List.all_eq_true.mpr hd]


theorem memberName_digits (v : String) (hne : v.data ≠ []) (hd : ∀ c ∈ v.data, c.isDigit = true) :
    memberName v = "val" ++ v ∧ validIdent ("val" ++ v) = true := by
  constructor
  · unfold memberName
    rw [if_pos (isNumber_digits v hne hd)]
  · unfold validIdent
    have hdata : ("val" ++ v).data = 'v' :: 'a' :: 'l' :: v.data := rfl
    rw [hdata]
    simp only [validIdentChars, List.all_cons]
    have hrest : ∀ d ∈ v.data, (d.isAlphanum || d == '_' || d == '$') = true := by
      intro d hdm
      have h1 := hd d hdm
      simp [Char.isAlphanum, Char.isAlpha, h1]
    simp [List.all_eq_true.mpr hrest]

theorem memberName_alpha (v : String) (c : Char) (rest : List Char) (hv : v.data = c :: rest)
    (hc : c.isAlpha = true) (hw : ∀ d ∈ v.data, isWordChar d = true)
    (hnn : isNumber v = false) :
    validIdent (memberName v) = true := by
  unfold memberName
  rw [if_neg (by simp [hnn])]
  unfold toPascalCase
  rw [hv]
  have hcw : isWordChar c = true := hw c (by rw [hv]; simp)
  have hcu : (c == '_') = false := by
    apply char_ne_of_toNat_ne
    have hq := char_isAlpha_iff.mp hc
    rw [show ('_').toNat = 95 from rfl]
    omega
  rw [pascalChars, if_pos hcw, hcu]
  simp only [Bool.false_eq_true, if_false]
  unfold validIdent
  rw [show (String.mk ([c.toUpper] ++ pascalTail rest)).data = c.toUpper :: pascalTail rest by simp]
  rw [validIdentChars]
  have hfirst : (Char.toUpper c).isAlpha = true := toUpper_isAlpha hc
  have hrest : (pascalTail rest).all (fun d => d.isAlphanum || d == '_' || d == '$') = true := by
    apply List.all_eq_true.mpr
    intro d hdm
    rcases pascalTail_mem rest (fun x hx => hw x (by rw [hv]; simp [hx])) d hdm with h | h
    · simp [h]
    · simp [h]
  simp [hfirst, hrest]


theorem mapColumns_nonEnum (s : String) (base rest : List Char)
    (he : enumInner s = none) (hws : wordSplit s.data = (base, rest)) :
    mapColumns s = mapBase base rest := by
  unfold mapColumns
  rw [he]
  show mapBase (wordSplit s.data).1 (wordSplit s.data).2 = mapBase base rest
  rw [hws]


/-- C5 (amended): for a physical type whose base keyword is not in the type
table, `mapColumns` returns the untyped logical type `any` with the
*lower-cased base keyword itself* as storage kind (not `text`) and no length
when the keyword is not char-family; the `text` fallback occurs exactly when
the type string has no leading word character. The mapper is a total
function, so it never throws. -/
theorem zorm_c5_amended :
    (∀ (s : String) (base rest : List Char),
      enumInner s = none → wordSplit s.data = (base, rest) → base.isEmpty = false →
      typeMap (String.mk (base.map Char.toLower)) = none →
      (mapColumns s).tsType = "any" ∧
      (mapColumns s).columnType = String.mk (base.map Char.toLower) ∧
      (hasSub (base.map Char.toLower) ['c', 'h', 'a', 'r'] = false →
        (mapColumns s).length = none) ∧
      (mapColumns s).enumValues = none ∧ (mapColumns s).transformer = none) ∧
    (∀ (s : String) (rest : List Char), enumInner s = none →
      wordSplit s.data = ([], rest) →
      mapColumns s = ⟨"any", "text", none, none, none⟩) := by
  constructor
  · intro s base rest he hws hb hmiss
    rw [mapColumns_nonEnum s base rest he hws]
    unfold mapBase
    rw [if_neg (by simp [hb])]
    simp only [hmiss, Option.getD_none]
    refine ⟨trivial, trivial, ?_, trivial, trivial⟩
    intro hch
    simp [hch]
  · intro s rest he hws
    rw [mapColumns_nonEnum s [] rest he hws]
    rfl


/-- C10 (amended): a length is returned only for base keywords containing
`char`; for those, a *nonzero* explicit parenthesized length takes
precedence, while an absent or explicit *zero* length falls back to the
table default (255 for varchar, 1 for char); all other keywords get no
length even with an explicit one. -/
theorem zorm_c10_amended :
    (∀ (s : String) (base rest : List Char),
      enumInner s = none → wordSplit s.data = (base, rest) → base.isEmpty = false →
      (hasSub (base.map Char.toLower) ['c', 'h', 'a', 'r'] = false →
        (mapColumns s).length = none) ∧
      (∀ n : Nat, hasSub (base.map Char.toLower) ['c', 'h', 'a', 'r'] = true →
        parseLen rest = some n → n ≠ 0 → (mapColumns s).length = some n) ∧
      (hasSub (base.map Char.toLower) ['c', 'h', 'a', 'r'] = true → parseLen rest = none →
        (mapColumns s).length = ((typeMap (String.mk (base.map Char.toLower))).getD
          ⟨"any", String.mk (base.map Char.toLower), none, none, none⟩).length) ∧
      (hasSub (base.map Char.toLower) ['c', 'h', 'a', 'r'] = true → parseLen rest = some 0 →
        (mapColumns s).length = ((typeMap (String.mk (base.map Char.toLower))).getD
          ⟨"any", String.mk (base.map Char.toLower), none, none, none⟩).length)) ∧
    (mapColumns "varchar").length = some 255 ∧ (mapColumns "char").length = some 1 := by
  refine ⟨?_, by decide, by decide⟩
  intro s base rest he hws hb
  rw [mapColumns_nonEnum s base rest he hws]
  unfold mapBase
  rw [if_neg (by simp [hb])]
  refine ⟨?_, ?_, ?_, ?_⟩
  · intro hch
    simp [hch]
  · intro n hch hp hn
    simp [hch, hp, hn]
  · intro hch hp
    simp [hch, hp]
  · intro hch hp
    simp [hch, hp]


/-- C9 (amended): the pooled connection is closed exactly on the successful
exit path — `generateRun` reports the pool as ended if and only if the whole
run succeeded, the introspection queries *and* the file writes alike; on
every failure path (a rejected query or a throwing `writeFileSync`, as in
`writeFailDb`, whose queries all succeed) the run terminates without closing
the pool (there is no try/finally in `generate`). -/
theorem zorm_c9_amended :
    (∀ (db : Db) (ts : String),
      ((generateRun db ts).2 = true ↔ ∃ out, (generateRun db ts).1 = Except.ok out)) ∧
    writeFailDb.showTables = Except.ok ["t"] ∧
    writeFailDb.fksOf "t" = Except.ok [] ∧
    writeFailDb.colsOf "t" = Except.ok [cInt "id" "PRI" ""] ∧
    generateRun writeFailDb "TS" = (Except.error "disk full", false) := by
  refine ⟨?_, rfl, rfl, rfl, rfl⟩
  intro db ts
  unfold generateRun
  cases h1 : db.showTables with
  | error e => simp
  | ok names =>
      cases h2 : exceptMapM db.fksOf names with
      | error e => simp [h2]
      | ok fksList =>
          cases h3 : exceptMapM db.colsOf names with
          | error e => simp [h2, h3]
          | ok colsJ =>
              cases h4 : emitLoop db names with
              | error e => simp [h2, h3, h4]
              | ok colsList =>
                  cases h5 : db.writeFile "index.ts" with
                  | error e => simp [h2, h3, h4, h5]
                  | ok u => simp [h2, h3, h4, h5]


theorem columnStep_hasPrimary (st : EmitState) (c : Col) :
    (columnStep st c).hasPrimary = (st.hasPrimary || c.colKey == "PRI") := by
  unfold columnStep
  cases hb : (c.colKey == "PRI") with
  | true =>
      rw [if_pos rfl]
      split <;> split <;> simp
  | false =>
      rw [if_neg (by simp)]
      simp

theorem foldColumns_hasPrimary : ∀ (cols : List Col) (st : EmitState),
    (cols.foldl columnStep st).hasPrimary =
      (st.hasPrimary || cols.any (fun c => c.colKey == "PRI")) := by
  intro cols
  induction cols with
  | nil => intro st; simp
  | cons c rest ih =>
      intro st
      rw [List.foldl_cons, ih, columnStep_hasPrimary]
      simp [Bool.or_assoc]

theorem forwardStep_hasPrimary (st : EmitState) (fk : Fk) :
    (forwardStep st fk).hasPrimary = st.hasPrimary := by
  unfold forwardStep
  split <;> rfl

theorem invStep_hasPrimary (st : EmitState) (rel : InvRel) :
    (invStep st rel).hasPrimary = st.hasPrimary := by
  unfold invStep
  dsimp only
  split <;> rfl

theorem m2mStep_hasPrimary (tn : String) (st : EmitState) (j : Junction) :
    (m2mStep tn st j).hasPrimary = st.hasPrimary := by
  unfold m2mStep
  dsimp only
  split <;> rfl

theorem foldForward_hasPrimary : ∀ (fks : List Fk) (st : EmitState),
    (fks.foldl forwardStep st).hasPrimary = st.hasPrimary := by
  intro fks
  induction fks with
  | nil => intro st; rfl
  | cons fk rest ih => intro st; rw [List.foldl_cons, ih, forwardStep_hasPrimary]

theorem foldInv_hasPrimary : ∀ (rels : List InvRel) (st : EmitState),
    (rels.foldl invStep st).hasPrimary = st.hasPrimary := by
  intro rels
  induction rels with
  | nil => intro st; rfl
  | cons rel rest ih => intro st; rw [List.foldl_cons, ih, invStep_hasPrimary]

theorem foldM2m_hasPrimary : ∀ (js : List Junction) (tn : String) (st : EmitState),
    (js.foldl (m2mStep tn) st).hasPrimary = st.hasPrimary := by
  intro js
  induction js with
  | nil => intro tn st; rfl
  | cons j rest ih => intro tn st; rw [List.foldl_cons, ih, m2mStep_hasPrimary]

theorem tableState_hasPrimary (cat : Catalog) (t : Table) :
    (tableState cat t).hasPrimary = t.columns.any (fun c => c.colKey == "PRI") := by
  unfold tableState afterInverse afterForward afterColumns
  rw [foldM2m_hasPrimary, foldInv_hasPrimary, foldForward_hasPrimary, foldColumns_hasPrimary]
  rfl

/-- C8: a table with no primary-key column is still emitted as a complete
entity file, its warning is raised (non-fatally), and every other table of
the catalog is emitted as well — the run completes with one file per table
plus the entry file. -/
theorem zorm_c8_no_primary_warning (cat : Catalog) (ts : String) (t : Table)
    (ht : t ∈ cat) (hnp : ∀ c ∈ t.columns, c.colKey ≠ "PRI") :
    (t.name ++ ".ts", tableCode cat t ts) ∈ (generate cat ts).files ∧
    warnMsg t.name ∈ (generate cat ts).warnings ∧
    (∀ u ∈ cat, (u.name ++ ".ts", tableCode cat u ts) ∈ (generate cat ts).files) ∧
    (generate cat ts).files.length = cat.length + 1 := by
  have hmemf : ∀ u ∈ cat, (u.name ++ ".ts", tableCode cat u ts) ∈ (generate cat ts).files := by
    intro u hu
    unfold generate
    exact List.mem_append_left _ (List.mem_map_of_mem _ hu)
  refine ⟨hmemf t ht, ?_, hmemf, ?_⟩
  · unfold generate
    apply List.mem_map_of_mem
    rw [List.mem_filter]
    refine ⟨ht, ?_⟩
    rw [tableState_hasPrimary]
    simp only [Bool.not_eq_true']
    apply List.any_eq_false.mpr
    intro c hc
    simp [hnp c hc]
  · unfold generate
    simp


theorem forwardStep_eq (st : EmitState) (fk : Fk) :
    forwardStep st fk =
      if st.imports.contains (fwdImportLine fk) then st
      else
        { st with
          entityCode := st.entityCode ++ fwdBlock fk,
          imports := st.imports ++ [fwdImportLine fk],
          mImports := pushUnique (pushUnique st.mImports "OneToOne") "JoinColumn" } := rfl

theorem forwardFold_char : ∀ (fks : List Fk) (st : EmitState),
    ((fks.foldl forwardStep st).entityCode =
      st.entityCode ++ ((fwdKeep st.imports fks).map fwdBlock).flatten) ∧
    ((fks.foldl forwardStep st).imports =
      st.imports ++ (fwdKeep st.imports fks).map fwdImportLine) := by
  intro fks
  induction fks with
  | nil => intro st; simp [fwdKeep]
  | cons fk rest ih =>
      intro st
      rw [List.foldl_cons, forwardStep_eq]
      simp only [fwdKeep]
      cases hc : st.imports.contains (fwdImportLine fk) with
      | true =>
          simp only [if_pos rfl]
          exact ih st
      | false =>
          simp only [Bool.false_eq_true, if_false]
          have h2 := ih { st with
            entityCode := st.entityCode ++ fwdBlock fk,
            imports := st.imports ++ [fwdImportLine fk],
            mImports := pushUnique (pushUnique st.mImports "OneToOne") "JoinColumn" }
          constructor
          · rw [h2.1]
            simp
          · rw [h2.2]
            simp


theorem fwdKeep_countP_of_seen : ∀ (fks : List Fk) (seen : List String) (s : String),
    seen.contains s = true →
    (fwdKeep seen fks).countP (fun k => fwdImportLine k == s) = 0 := by
  intro fks
  induction fks with
  | nil => intro seen s _; rfl
  | cons fk rest ih =>
      intro seen s hs
      simp only [fwdKeep]
      cases hc : seen.contains (fwdImportLine fk) with
      | true =>
          simp only [if_pos rfl]
          exact ih seen s hs
      | false =>
          simp only [Bool.false_eq_true, if_false]
          rw [List.countP_cons]
          have hne : (fwdImportLine fk == s) = false := by
            cases he : (fwdImportLine fk == s) with
            | false => rfl
            | true =>
                rw [eq_of_beq he] at hc
                rw [hc] at hs
                exact absurd hs (by decide)
          rw [ih (seen ++ [fwdImportLine fk]) s (by simp_all), hne]
          simp

theorem fwdKeep_countP_of_new : ∀ (fks : List Fk) (seen : List String) (fk0 : Fk),
    fk0 ∈ fks → seen.contains (fwdImportLine fk0) = false →
    (fwdKeep seen fks).countP (fun k => fwdImportLine k == fwdImportLine fk0) = 1 := by
  intro fks
  induction fks with
  | nil => intro seen fk0 h _; exact absurd h (by simp)
  | cons fk rest ih =>
      intro seen fk0 hmem hns
      simp only [fwdKeep]
      cases hc : seen.contains (fwdImportLine fk) with
      | true =>
          simp only [if_pos rfl]
          have hne : fk0 ≠ fk := by
            intro he
            rw [he] at hns
            rw [hns] at hc
            exact absurd hc (by decide)
          have hmem2 : fk0 ∈ rest := by
            rcases List.mem_cons.mp hmem with h | h
            · exact absurd h hne
            · exact h
          exact ih seen fk0 hmem2 hns
      | false =>
          simp only [Bool.false_eq_true, if_false]
          rw [List.countP_cons]
          cases heq : (fwdImportLine fk == fwdImportLine fk0) with
          | true =>
              rw [fwdKeep_countP_of_seen rest (seen ++ [fwdImportLine fk]) (fwdImportLine fk0)
                (by simp [eq_of_beq heq])]
              simp [heq]
          | false =>
              have hmem2 : fk0 ∈ rest := by
                rcases List.mem_cons.mp hmem with h | h
                · subst h
                  simp at heq
                · exact h
              have hns2 : (seen ++ [fwdImportLine fk]).contains (fwdImportLine fk0) = false := by
                have hfk : fwdImportLine fk ≠ fwdImportLine fk0 := by
                  intro he
                  rw [he] at heq
                  simp at heq
                simp_all [Ne.symm hfk]
              rw [ih (seen ++ [fwdImportLine fk]) fk0 hmem2 hns2]
              simp [heq]


/-- C3 (amended): in the forward-relation loop, only the first foreign key
per referenced table produces a one-to-one relation; subsequent foreign keys
whose referenced table generates the same import line are dropped by the
`imports.includes` guard (the kept list holds exactly one entry per import
line), and no column-name disambiguation takes place. -/
theorem zorm_c3_amended : ∀ (fks : List Fk) (st : EmitState), st.imports = [] →
    ((fks.foldl forwardStep st).entityCode =
      st.entityCode ++ ((fwdKeep [] fks).map fwdBlock).flatten) ∧
    (∀ fk ∈ fks, (fwdKeep [] fks).countP (fun k => fwdImportLine k == fwdImportLine fk) = 1) := by
  intro fks st hst
  constructor
  · have h := (forwardFold_char fks st).1
    rwa [hst] at h
  · intro fk hfk
    exact fwdKeep_countP_of_new fks [] fk hfk (by rfl)


theorem junctionStep_not_pred (jt : List (String × Junction)) (t : Table)
    (h : junctionPred t = false) : junctionStep jt t = jt := by
  unfold junctionStep
  rw [if_neg (by simp [h])]

theorem junctionTables_skip : ∀ (l1 l2 : List Table) (t : Table), junctionPred t = false →
    junctionTables (l1 ++ t :: l2) = junctionTables (l1 ++ l2) := by
  intro l1 l2 t h
  unfold junctionTables
  rw [List.foldl_append, List.foldl_append, List.foldl_cons, junctionStep_not_pred _ _ h]

theorem junctionPred_iff (t : Table) :
    junctionPred t = true ↔
      (t.fks.length = 2 ∧ t.columns.length = 2 ∧ ∀ c ∈ t.columns, c.colKey = "PRI") := by
  unfold junctionPred
  simp [List.isEmpty_iff, List.filter_eq_nil_iff]
  tauto

theorem fks_pair (t : Table) (hp : junctionPred t = true) : ∃ l r, t.fks = [l, r] := by
  have hlen := ((junctionPred_iff t).mp hp).1
  cases hf : t.fks with
  | nil => rw [hf] at hlen; simp at hlen
  | cons a rest =>
      cases rest with
      | nil => rw [hf] at hlen; simp at hlen
      | cons b rest2 =>
          cases rest2 with
          | nil => exact ⟨a, b, rfl⟩
          | cons c rest3 => rw [hf] at hlen; simp at hlen

theorem junctionStep_eq2 (jt : List (String × Junction)) (t : Table) (l r : Fk)
    (hp : junctionPred t = true) (hf : t.fks = [l, r]) :
    junctionStep jt t =
      (if (jt.find? (fun e =>
          e.1 == (sortPair l.referencedTable r.referencedTable).1 ++ "_" ++
            (sortPair l.referencedTable r.referencedTable).2)).isSome then jt
       else jt ++ [((sortPair l.referencedTable r.referencedTable).1 ++ "_" ++
            (sortPair l.referencedTable r.referencedTable).2,
          { left := (sortPair l.referencedTable r.referencedTable).1,
            right := (sortPair l.referencedTable r.referencedTable).2,
            leftCol := l.column, rightCol := r.column })]) := by
  unfold junctionStep
  rw [if_pos hp, hf]

theorem junctionKey_eq2 (t : Table) (l r : Fk) (hf : t.fks = [l, r]) :
    junctionKey t = (sortPair l.referencedTable r.referencedTable).1 ++ "_" ++
      (sortPair l.referencedTable r.referencedTable).2 := by
  unfold junctionKey
  rw [hf]

theorem junctionStep_mem (jt : List (String × Junction)) (t : Table)
    (e : String × Junction) (he : e ∈ jt) : e ∈ junctionStep jt t := by
  unfold junctionStep
  split
  · split
    · dsimp only
      split
      · exact he
      · exact List.mem_append_left _ he
    · exact he
  · exact he

theorem junctionStep_key (jt : List (String × Junction)) (t : Table)
    (hp : junctionPred t = true) : ∃ e ∈ junctionStep jt t, e.1 = junctionKey t := by
  obtain ⟨l, r, hf⟩ := fks_pair t hp
  rw [junctionStep_eq2 jt t l r hp hf, junctionKey_eq2 t l r hf]
  split
  case isTrue hfind =>
      obtain ⟨e, hfe⟩ := Option.isSome_iff_exists.mp hfind
      refine ⟨e, List.mem_of_find?_eq_some hfe, ?_⟩
      have := List.find?_some hfe
      exact eq_of_beq this
  case isFalse hfind =>
      refine ⟨((sortPair l.referencedTable r.referencedTable).1 ++ "_" ++
          (sortPair l.referencedTable r.referencedTable).2,
        { left := (sortPair l.referencedTable r.referencedTable).1,
          right := (sortPair l.referencedTable r.referencedTable).2,
          leftCol := l.column, rightCol := r.column }), List.mem_append_right _ (by simp), rfl⟩

theorem foldl_junctionStep_mem : ∀ (l : List Table) (jt : List (String × Junction))
    (P : String × Junction → Prop), (∃ e ∈ jt, P e) → ∃ e ∈ l.foldl junctionStep jt, P e := by
  intro l
  induction l with
  | nil => intro jt P h; exact h
  | cons t rest ih =>
      intro jt P h
      rw [List.foldl_cons]
      exact ih (junctionStep jt t) P ⟨h.choose, junctionStep_mem jt t _ h.choose_spec.1, h.choose_spec.2⟩

/-- C1 (amended): a table is classified as a many-to-many junction if and
only if it has exactly two columns, both part of the primary key, and
exactly two foreign keys — the referenced tables need *not* be distinct
(a self-referencing candidate also qualifies); every table failing these
conditions contributes nothing to the junction map. -/
theorem zorm_c1_amended : ∀ (l1 l2 : List Table) (t : Table),
    (junctionPred t = false → junctionTables (l1 ++ t :: l2) = junctionTables (l1 ++ l2)) ∧
    (junctionPred t = true → ∃ e ∈ junctionTables (l1 ++ t :: l2), e.1 = junctionKey t) ∧
    (junctionPred t = true ↔
      (t.fks.length = 2 ∧ t.columns.length = 2 ∧ ∀ c ∈ t.columns, c.colKey = "PRI")) := by
  intro l1 l2 t
  refine ⟨junctionTables_skip l1 l2 t, ?_, junctionPred_iff t⟩
  intro hp
  unfold junctionTables
  rw [List.foldl_append, List.foldl_cons]
  exact foldl_junctionStep_mem l2 _ _ (junctionStep_key _ t hp)


theorem ltChars_irrefl : ∀ (x : List Char), ltChars x x = false := by
  intro x
  induction x with
  | nil => rfl
  | cons c rest ih =>
      rw [ltChars, if_neg (by omega), if_neg (by omega)]
      exact ih

theorem ltChars_asymm : ∀ (x y : List Char), ltChars x y = true → ltChars y x = false := by
  intro x
  induction x with
  | nil =>
      intro y h
      cases y with
      | nil => simp [ltChars] at h
      | cons c rest => rfl
  | cons c rest ih =>
      intro y h
      cases y with
      | nil => simp [ltChars] at h
      | cons d drest =>
          rw [ltChars] at h
          rw [ltChars]
          by_cases hcd : c.toNat < d.toNat
          · rw [if_neg (by omega), if_pos hcd]
          · by_cases hdc : d.toNat < c.toNat
            · rw [if_neg hcd, if_pos hdc] at h
              exact absurd h (by simp)
            · rw [if_neg hcd, if_neg hdc] at h
              rw [if_neg hdc, if_neg hcd]
              exact ih drest h

theorem sortPair_sorted (a b : String) :
    ltChars (sortPair a b).2.data (sortPair a b).1.data = false := by
  unfold sortPair
  cases h : ltChars b.data a.data with
  | true =>
      rw [if_pos rfl]
      exact ltChars_asymm b.data a.data h
  | false =>
      rw [if_neg (by simp)]
      exact h

theorem junctionStep_entryOk (jt : List (String × Junction)) (t : Table)
    (hinv : ∀ e ∈ jt, e.1 = e.2.left ++ "_" ++ e.2.right ∧
      ltChars e.2.right.data e.2.left.data = false) :
    ∀ e ∈ junctionStep jt t, e.1 = e.2.left ++ "_" ++ e.2.right ∧
      ltChars e.2.right.data e.2.left.data = false := by
  intro e he
  unfold junctionStep at he
  split at he
  case isTrue hp =>
    obtain ⟨l, r, hf⟩ := fks_pair t hp
    rw [hf] at he
    dsimp only at he
    split at he
    · exact hinv e he
    · rcases List.mem_append.mp he with h | h
      · exact hinv e h
      · have : e = ((sortPair l.referencedTable r.referencedTable).1 ++ "_" ++
            (sortPair l.referencedTable r.referencedTable).2,
          { left := (sortPair l.referencedTable r.referencedTable).1,
            right := (sortPair l.referencedTable r.referencedTable).2,
            leftCol := l.column, rightCol := r.column }) := by simpa using h
        subst this
        exact ⟨rfl, sortPair_sorted l.referencedTable r.referencedTable⟩
  case isFalse => exact hinv e he

theorem junctionTables_entryOk : ∀ (cat : Catalog) (e : String × Junction),
    e ∈ junctionTables cat → e.1 = e.2.left ++ "_" ++ e.2.right ∧
      ltChars e.2.right.data e.2.left.data = false := by
  have main : ∀ (l : List Table) (jt : List (String × Junction)),
      (∀ e ∈ jt, e.1 = e.2.left ++ "_" ++ e.2.right ∧
        ltChars e.2.right.data e.2.left.data = false) →
      ∀ e ∈ l.foldl junctionStep jt, e.1 = e.2.left ++ "_" ++ e.2.right ∧
        ltChars e.2.right.data e.2.left.data = false := by
    intro l
    induction l with
    | nil => intro jt h e he; exact h e he
    | cons t rest ih =>
        intro jt h e he
        rw [List.foldl_cons] at he
        exact ih (junctionStep jt t) (junctionStep_entryOk jt t h) e he
  intro cat e he
  exact main cat [] (by simp) e he

theorem junctionStep_keysNodup (jt : List (String × Junction)) (t : Table)
    (hnd : (jt.map Prod.fst).Nodup) : ((junctionStep jt t).map Prod.fst).Nodup := by
  unfold junctionStep
  split
  case isTrue hp =>
    obtain ⟨l, r, hf⟩ := fks_pair t hp
    rw [hf]
    dsimp only
    split
    case isTrue => exact hnd
    case isFalse hfind =>
      have hnone : jt.find? (fun e =>
          e.1 == (sortPair l.referencedTable r.referencedTable).1 ++ "_" ++
            (sortPair l.referencedTable r.referencedTable).2) = none := by
        cases hh : jt.find? (fun e =>
            e.1 == (sortPair l.referencedTable r.referencedTable).1 ++ "_" ++
              (sortPair l.referencedTable r.referencedTable).2) with
        | none => rfl
        | some v => rw [hh] at hfind; simp at hfind
      have hnotin : ∀ e ∈ jt, ¬ e.1 = (sortPair l.referencedTable r.referencedTable).1 ++
          "_" ++ (sortPair l.referencedTable r.referencedTable).2 := by
        intro e he heq
        have := List.find?_eq_none.mp hnone e he
        simp [heq] at this
      rw [List.map_append]
      simp only [List.map_cons, List.map_nil]
      rw [List.nodup_append]
      refine ⟨hnd, by simp, ?_⟩
      intro k hk hk2
      simp only [List.mem_singleton] at hk2
      obtain ⟨e, he, hke⟩ := List.mem_map.mp hk
      exact hnotin e he (by rw [hke]; exact hk2)
  case isFalse => exact hnd


theorem junctionTables_keysNodup : ∀ (cat : Catalog),
    ((junctionTables cat).map Prod.fst).Nodup := by
  have main : ∀ (l : List Table) (jt : List (String × Junction)),
      (jt.map Prod.fst).Nodup → ((l.foldl junctionStep jt).map Prod.fst).Nodup := by
    intro l
    induction l with
    | nil => intro jt h; exact h
    | cons t rest ih =>
        intro jt h
        rw [List.foldl_cons]
        exact ih (junctionStep jt t) (junctionStep_keysNodup jt t h)
  intro cat
  exact main cat [] (by simp)

theorem many_ne_om (E T : String) : ("\t@ManyToMany(() => " ++ E ++ ")") ≠ omLine T := by
  intro h
  have h2 := congrArg (fun s => s.data.get? 1) h
  have h3 : (some '@' : Option Char) = some 'o' := h2
  simp at h3

theorem join_ne_om (T : String) : ("\t@JoinTable()" : String) ≠ omLine T := by
  intro h
  have h2 := congrArg (fun s => s.data.get? 1) h
  have h3 : (some '@' : Option Char) = some 'o' := h2
  simp at h3

theorem m2mBlock_count_self (T : String) : (m2mBlock T).count (omLine T) = 1 := by
  unfold m2mBlock
  dsimp only
  rw [List.count_cons, List.count_cons, List.count_cons, List.count_nil]
  rw [show (("\t@ManyToMany(() => " ++ toPascalCase T ++ ")") == omLine T) = false by
    simp [many_ne_om]]
  rw [show (("\t@JoinTable()" : String) == omLine T) = false by simp [join_ne_om]]
  simp

theorem m2mBlock_count_other (T B : String)
    (h : ∀ ln ∈ m2mBlock T, ¬ ln = omLine B) : (m2mBlock T).count (omLine B) = 0 := by
  rw [List.count_eq_zero]
  intro hmem
  exact h (omLine B) hmem rfl


theorem m2mStep_eq2 (tn : String) (st : EmitState) (j : Junction) :
    m2mStep tn st j =
      if st.entityCode.any (fun line => hasSubStr line ("@" ++ pluralize (m2mTarget tn j))) then st
      else
        { st with
          imports := pushUnique st.imports
            ("import \x7b " ++ toPascalCase (m2mTarget tn j) ++ " \x7d from \"./" ++
              m2mTarget tn j ++ "\";"),
          mImports := pushUnique (pushUnique st.mImports "ManyToMany") "JoinTable",
          entityCode := st.entityCode ++ m2mBlock (m2mTarget tn j) } := rfl

theorem m2mLoop_count_zero : ∀ (js : List Junction) (tn B : String) (st : EmitState),
    js.countP (fun j => m2mTarget tn j == B) = 0 →
    (∀ j ∈ js, ∀ ln ∈ m2mBlock (m2mTarget tn j), ¬ ln = omLine B) →
    (js.foldl (m2mStep tn) st).entityCode.count (omLine B) =
      st.entityCode.count (omLine B) := by
  intro js
  induction js with
  | nil => intro tn B st _ _; rfl
  | cons j rest ih =>
      intro tn B st hcnt hoth
      rw [List.foldl_cons]
      have hcnt2 : rest.countP (fun j => m2mTarget tn j == B) = 0 := by
        rw [List.countP_cons] at hcnt
        omega
      have hoth2 : ∀ j2 ∈ rest, ∀ ln ∈ m2mBlock (m2mTarget tn j2), ¬ ln = omLine B :=
        fun j2 hj2 => hoth j2 (by simp [hj2])
      rw [ih tn B _ hcnt2 hoth2, m2mStep_eq2]
      split
      · rfl
      · dsimp only
        rw [List.count_append,
          m2mBlock_count_other (m2mTarget tn j) B (hoth j (by simp))]
        omega

theorem m2mLoop_count : ∀ (js : List Junction) (tn B : String) (st : EmitState),
    js.countP (fun j => m2mTarget tn j == B) = 1 →
    (∀ j ∈ js, ¬ m2mTarget tn j = B →
      ∀ ln ∈ m2mBlock (m2mTarget tn j),
        hasSubStr ln ("@" ++ pluralize B) = false ∧ ¬ ln = omLine B) →
    (∀ ln ∈ st.entityCode, hasSubStr ln ("@" ++ pluralize B) = false) →
    st.entityCode.count (omLine B) = 0 →
    (js.foldl (m2mStep tn) st).entityCode.count (omLine B) = 1 := by
  intro js
  induction js with
  | nil =>
      intro tn B st hcnt _ _ _
      simp at hcnt
  | cons j rest ih =>
      intro tn B st hcnt hoth hpre hpre0
      rw [List.foldl_cons, m2mStep_eq2]
      cases htar : (m2mTarget tn j == B) with
      | true =>
          have htEq : m2mTarget tn j = B := eq_of_beq htar
          have hguard : (st.entityCode.any fun line =>
              hasSubStr line ("@" ++ pluralize (m2mTarget tn j))) = false := by
            rw [htEq]
            exact List.any_eq_false.mpr (fun l hl => by simp [hpre l hl])
          rw [if_neg (by simp [hguard])]
          have hcnt2 : rest.countP (fun j => m2mTarget tn j == B) = 0 := by
            rw [List.countP_cons, htar, if_pos rfl] at hcnt
            omega
          have hoth2 : ∀ j2 ∈ rest, ∀ ln ∈ m2mBlock (m2mTarget tn j2), ¬ ln = omLine B := by
            intro j2 hj2 ln hln
            have hne : ¬ m2mTarget tn j2 = B := by
              intro he
              have hsat := List.countP_eq_zero.mp hcnt2 j2 hj2
              simp [he] at hsat
            exact (hoth j2 (by simp [hj2]) hne ln hln).2
          rw [m2mLoop_count_zero rest tn B _ hcnt2 hoth2]
          rw [List.count_append, hpre0, htEq, m2mBlock_count_self]
      | false =>
          have htNe : ¬ m2mTarget tn j = B := by
            intro he
            rw [he] at htar
            simp at htar
          have hcnt2 : rest.countP (fun j => m2mTarget tn j == B) = 1 := by
            rw [List.countP_cons, htar, if_neg (by decide)] at hcnt
            omega
          have hoth2 : ∀ j2 ∈ rest, ¬ m2mTarget tn j2 = B →
              ∀ ln ∈ m2mBlock (m2mTarget tn j2),
                hasSubStr ln ("@" ++ pluralize B) = false ∧ ¬ ln = omLine B :=
            fun j2 hj2 => hoth j2 (by simp [hj2])
          split
          · exact ih tn B st hcnt2 hoth2 hpre hpre0
          · apply ih tn B _ hcnt2 hoth2
            · intro ln hln
              rcases List.mem_append.mp hln with h | h
              · exact hpre ln h
              · exact (hoth j (by simp) htNe ln h).1
            · rw [List.count_append, hpre0,
                m2mBlock_count_other _ _ (fun ln hln => (hoth j (by simp) htNe ln hln).2)]

/-- C4 (amended): provided no other junction entry collides with the pair's
underscore-joined dedup key `A_B`, a pair `A`, `B` (named in code-unit order)
linked by at least one junction table owns exactly one relation in the
junction map (a second junction table between the same pair adds nothing),
and the relation is emitted exactly twice: exactly one many-to-many property
line on `A`'s entity aimed at `B` and exactly one on `B`'s aimed at `A` —
even when `A` or `B` participate in further junction pairs, provided no
unrelated entity line trips the `@propName` dedup guard or spoofs the
property line itself. -/
theorem zorm_c4_amended :
    ∀ (cat : Catalog) (A B : String) (tA tB tJ : Table) (l r : Fk),
    tA.name = A → tB.name = B →
    ltChars A.data B.data = true →
    tJ ∈ cat → junctionPred tJ = true → tJ.fks = [l, r] →
    sortPair l.referencedTable r.referencedTable = (A, B) →
    (∀ e ∈ junctionTables cat, e.1 = A ++ "_" ++ B → e.2.left = A ∧ e.2.right = B) →
    (∀ ln ∈ (afterInverse cat tA).entityCode, hasSubStr ln ("@" ++ pluralize B) = false) →
    (afterInverse cat tA).entityCode.count (omLine B) = 0 →
    (∀ j ∈ junctionsFor cat A, ¬ m2mTarget A j = B →
      ∀ ln ∈ m2mBlock (m2mTarget A j),
        hasSubStr ln ("@" ++ pluralize B) = false ∧ ¬ ln = omLine B) →
    (∀ ln ∈ (afterInverse cat tB).entityCode, hasSubStr ln ("@" ++ pluralize A) = false) →
    (afterInverse cat tB).entityCode.count (omLine A) = 0 →
    (∀ j ∈ junctionsFor cat B, ¬ m2mTarget B j = A →
      ∀ ln ∈ m2mBlock (m2mTarget B j),
        hasSubStr ln ("@" ++ pluralize A) = false ∧ ¬ ln = omLine A) →
    ((junctionTables cat).countP (fun e => e.2.left == A && e.2.right == B) = 1) ∧
    (tableState cat tA).entityCode.count (omLine B) = 1 ∧
    (tableState cat tB).entityCode.count (omLine A) = 1 := by
  intro cat A B tA tB tJ l r hnA hnB hltAB htJmem hpred hfks hsort
    hNoConflate hGA hZA hOthA hGB hZB hOthB
  have hABne : ¬ (A = B) := by
    intro h
    rw [h, ltChars_irrefl B.data] at hltAB
    exact absurd hltAB (by simp)
  have hkey : junctionKey tJ = A ++ "_" ++ B := by
    rw [junctionKey_eq2 tJ l r hfks, hsort]
  obtain ⟨l1, l2, hcat⟩ := List.append_of_mem htJmem
  have hex : ∃ e ∈ junctionTables cat, e.1 = A ++ "_" ++ B := by
    rw [hcat]
    unfold junctionTables
    rw [List.foldl_append, List.foldl_cons]
    have hk := junctionStep_key (l1.foldl junctionStep []) tJ hpred
    rw [hkey] at hk
    exact foldl_junctionStep_mem l2 _ _ hk
  obtain ⟨e0, he0mem, he0key⟩ := hex
  have he0lr := hNoConflate e0 he0mem he0key
  have hpos : 0 < (junctionTables cat).countP (fun e => e.2.left == A && e.2.right == B) := by
    rw [List.countP_pos_iff]
    exact ⟨e0, he0mem, by simp [he0lr.1, he0lr.2]⟩
  have hle : (junctionTables cat).countP (fun e => e.2.left == A && e.2.right == B) ≤
      (junctionTables cat).countP (fun e => e.1 == A ++ "_" ++ B) := by
    apply List.countP_mono_left
    intro e he hp
    simp only [Bool.and_eq_true, beq_iff_eq] at hp
    have hok := (junctionTables_entryOk cat e he).1
    simp [hok, hp.1, hp.2]
  have hkc : ((junctionTables cat).map Prod.fst).count (A ++ "_" ++ B) =
      (junctionTables cat).countP (fun e => e.1 == A ++ "_" ++ B) := by
    rw [List.count_eq_countP, List.countP_map]
    rfl
  have hkle : ((junctionTables cat).map Prod.fst).count (A ++ "_" ++ B) ≤ 1 :=
    List.nodup_iff_count_le_one.mp (junctionTables_keysNodup cat) _
  have hcount : (junctionTables cat).countP (fun e => e.2.left == A && e.2.right == B) = 1 := by
    omega
  have hApart : (junctionsFor cat A).countP (fun j => m2mTarget A j == B) = 1 := by
    unfold junctionsFor
    rw [List.countP_filter, List.countP_map, ← hcount]
    apply List.countP_congr
    intro e he
    have hsorted := (junctionTables_entryOk cat e he).2
    simp only [Function.comp, Bool.and_eq_true, Bool.or_eq_true, beq_iff_eq]
    unfold m2mTarget
    constructor
    · rintro ⟨htar, hside⟩
      by_cases hc : e.2.left = A
      · rw [if_pos (by simp [hc])] at htar
        exact ⟨hc, htar⟩
      · rw [if_neg (by simp [hc])] at htar
        rcases hside with hla | hra
        · exact absurd hla hc
        · rw [hra, htar] at hsorted
          rw [hsorted] at hltAB
          exact absurd hltAB (by simp)
    · rintro ⟨hla, hrb⟩
      refine ⟨?_, Or.inl hla⟩
      rw [if_pos (by simp [hla])]
      exact hrb
  have hBpart : (junctionsFor cat B).countP (fun j => m2mTarget B j == A) = 1 := by
    unfold junctionsFor
    rw [List.countP_filter, List.countP_map, ← hcount]
    apply List.countP_congr
    intro e he
    have hsorted := (junctionTables_entryOk cat e he).2
    simp only [Function.comp, Bool.and_eq_true, Bool.or_eq_true, beq_iff_eq]
    unfold m2mTarget
    constructor
    · rintro ⟨htar, hside⟩
      by_cases hc : e.2.left = B
      · rw [if_pos (by simp [hc])] at htar
        rw [htar, hc] at hsorted
        rw [hsorted] at hltAB
        exact absurd hltAB (by simp)
      · rw [if_neg (by simp [hc])] at htar
        rcases hside with hlb | hrb
        · exact absurd hlb hc
        · exact ⟨htar, hrb⟩
    · rintro ⟨hla, hrb⟩
      refine ⟨?_, Or.inr hrb⟩
      rw [if_neg (show ¬ (e.2.left == B) = true by simp [hla]; exact hABne)]
      exact hla
  refine ⟨hcount, ?_, ?_⟩
  · unfold tableState
    rw [hnA]
    exact m2mLoop_count (junctionsFor cat A) A B (afterInverse cat tA) hApart hOthA hGA hZA
  · unfold tableState
    rw [hnB]
    exact m2mLoop_count (junctionsFor cat B) B A (afterInverse cat tB) hBpart hOthB hGB hZB


/-- C6 (amended): for enum literals free of commas and line breaks, the
mapper produces one member per literal, in declaration order, whose raw
values round-trip exactly; a purely numeric literal gets the prefix `val`,
and the derived names are valid identifiers whenever the literal is a digit
string or a word-character string starting with a letter (a numeric literal
with sign or decimal point, such as `1.5`, yields an invalid name). -/
theorem zorm_c6_amended :
    ∀ (vs : List String), vs.isEmpty = false →
    (∀ v ∈ vs, ∀ c ∈ v.data, (c == ',') = false ∧ (c == '\n') = false ∧ (c == '\r') = false) →
    (mapColumns (mkEnumType vs)).columnType = "enum" ∧
    (mapColumns (mkEnumType vs)).enumValues = some vs ∧
    (∀ v : String, isNumber v = true → memberName v = "val" ++ v) ∧
    (∀ v : String, v.data ≠ [] → (∀ c ∈ v.data, c.isDigit = true) →
      memberName v = "val" ++ v ∧ validIdent (memberName v) = true) ∧
    (∀ (v : String) (c : Char) (rest : List Char), v.data = c :: rest → c.isAlpha = true →
      (∀ d ∈ v.data, isWordChar d = true) → isNumber v = false →
      validIdent (memberName v) = true) := by
  intro vs hne hch
  have h := mapColumns_mkEnumType vs hne hch
  refine ⟨h.1, h.2, ?_, ?_, fun v c rest hv hc hw hnn => memberName_alpha v c rest hv hc hw hnn⟩
  · intro v hnum
    unfold memberName
    rw [if_pos hnum]
  · intro v hne2 hd
    have hm := memberName_digits v hne2 hd
    exact ⟨hm.1, by rw [hm.1]; exact hm.2⟩

theorem stripTs_tableCode (cat : Catalog) (t : Table) (ts : String) :
    stripTs (tableCode cat t ts) =
      ["/**", "* AutoGenerated by @zuzjs/orm.", "*/"] ++ stripTs (tableBody cat t) := rfl

/-- C7: the generator is deterministic — for any catalog snapshot, two runs
with different timestamps produce identical files once the header timestamp
line is dropped, so output depends only on the catalog input. -/
theorem zorm_c7_determinism : ∀ (cat : Catalog) (ts1 ts2 : String),
    (generate cat ts1).files.map (fun f => (f.1, stripTs f.2)) =
    (generate cat ts2).files.map (fun f => (f.1, stripTs f.2)) := by
  intro cat ts1 ts2
  unfold generate
  simp only [List.map_append, List.map_map, List.map_cons, List.map_nil]
  congr 1

/-- C1 (counterexample): table `j` has two columns, both primary, and two
foreign keys — but both reference the *same* table `t`; the code still
classifies it as a junction (key `t_t`) and emits a many-to-many relation on
`t`, contradicting the claim that only two *distinct* referenced tables
qualify and that nothing is produced otherwise. -/
theorem zorm_c1_counterexample :
    jT.fks.map (fun fk => fk.referencedTable) = ["t", "t"] ∧
    junctionTables catJ = [("t_t", ⟨"t", "t", "x", "y"⟩)] ∧
    "\t@ManyToMany(() => T)" ∈ tableBody catJ tT := by decide

/-- C2 (code divergence): `order` declares two foreign keys to `customer`,
yet `customer`'s emitted entity contains the inverse relation `fkOrders`
twice — the duplicate guard looks for `' orders!:'`, which never matches the
emitted `'\tfkOrders!:'` lines, so one inverse relation per *foreign key* is
emitted instead of one per referencing table. -/
theorem zorm_c2_duplicate_inverse :
    orderT.fks.map (fun fk => fk.referencedTable) = ["customer", "customer"] ∧
    (inverseRelations cat2 "customer").length = 2 ∧
    (tableBody cat2 customerT).count "\tfkOrders!: Order[];\n" = 2 ∧
    (tableBody cat2 customerT).count "\t@OneToMany(() => Order, r => r.fkCustomer)" = 2 := by
  decide

/-- C3 (counterexample): `order` declares two foreign keys to `customer`,
but its emitted entity contains only one forward relation (for the first key
`a`); the second key `b` produces nothing — no `@JoinColumn` with name `b`
appears — contradicting "each foreign key produces its own forward
relation". -/
theorem zorm_c3_counterexample :
    orderT.fks.length = 2 ∧
    orderT.fks.map (fun fk => fk.referencedTable) = ["customer", "customer"] ∧
    (tableBody cat2 orderT).count "\t@OneToOne(() => Customer)" = 1 ∧
    (tableBody cat2 orderT).count "\t@JoinColumn(\x7b name: \"b\" \x7d)" = 0 := by decide

/-- C4 (counterexample): the junction dedup key is the underscore-join of the
sorted pair, so the pair `(a_b, c)` and the pair `(a, b_c)` collide on key
`a_b_c`; with junction table `jx` linking `a_b`–`c` scanned first, the
junction table `jy` linking `a`–`b_c` adds nothing, and the linked pair
`(a, b_c)` gets zero many-to-many relations instead of exactly one. -/
theorem zorm_c4_counterexample :
    jyT ∈ catX ∧ junctionPred jyT = true ∧
    jyT.fks.map (fun fk => fk.referencedTable) = ["a", "b_c"] ∧
    sortPair "a" "b_c" = ("a", "b_c") ∧
    (junctionTables catX).countP (fun e => e.2.left == "a" && e.2.right == "b_c") = 0 := by
  decide

/-- C5 (counterexample): for the unknown base keyword `geometry` the mapper
returns storage kind `geometry` (the keyword itself), not the claimed
fallback storage kind `text`. -/
theorem zorm_c5_counterexample :
    typeMap "geometry" = none ∧
    mapColumns "geometry" = ⟨"any", "geometry", none, none, none⟩ ∧
    (mapColumns "geometry").columnType ≠ "text" := by decide

/-- C6 (counterexample): the enum literal `1.5` is purely numeric, so its
member name is `val1.5` — which contains a dot and is not a valid
identifier, contradicting "derived member names are valid identifiers". -/
theorem zorm_c6_counterexample :
    (mapColumns "enum('1.5')").enumValues = some ["1.5"] ∧
    memberName "1.5" = "val1.5" ∧
    validIdent "val1.5" = false := by decide

/-- C9 (counterexample): when the `SHOW TABLES` query fails, `generate`
terminates with the failure and `pool.end()` is never reached — the pool is
not released on this exit path. -/
theorem zorm_c9_counterexample :
    generateRun failDb "TS" = (Except.error "connection lost", false) := rfl

/-- C10 (counterexample): `varchar(0)` carries an explicit parenthesized
length 0, but JS falsiness (`length || config.length`) discards it and the
default 255 is returned — the explicit length does not take precedence. -/
theorem zorm_c10_counterexample :
    parseLen "(0)".data = some 0 ∧
    (mapColumns "varchar(0)").length = some 255 := by decide

/-- Witness for C1 (amended): `customerT` (one column) contributes nothing to
the junction scan of `catJ`-like catalogs, while `jT` (a qualifying junction
candidate with both keys to `t`) puts its key into the map. -/
theorem zorm_c1_amended_witness :
    (junctionTables ([tT] ++ customerT :: [jT]) = junctionTables ([tT] ++ [jT])) ∧
    (∃ e ∈ junctionTables ([tT] ++ jT :: []), e.1 = junctionKey jT) :=
  ⟨(zorm_c1_amended [tT] [jT] customerT).1 (by decide),
   (zorm_c1_amended [tT] [] jT).2.1 (by decide)⟩

/-- Witness for C3 (amended): on `order`'s two foreign keys to `customer`,
the forward loop keeps exactly one entry for the shared import line. -/
theorem zorm_c3_amended_witness :
    ((orderT.fks.foldl forwardStep (afterColumns orderT)).entityCode =
      (afterColumns orderT).entityCode ++ ((fwdKeep [] orderT.fks).map fwdBlock).flatten) ∧
    (fwdKeep [] orderT.fks).countP
      (fun k => fwdImportLine k == fwdImportLine ⟨"a", "customer", "id"⟩) = 1 :=
  ⟨(zorm_c3_amended orderT.fks (afterColumns orderT) (by decide)).1,
   (zorm_c3_amended orderT.fks (afterColumns orderT) (by decide)).2
     ⟨"a", "customer", "id"⟩ (by decide)⟩

/-- Witness for C4 (amended): in `catY` the pair `a`, `b` is linked by the
two junction tables `jone` and `jtwo`, and `a` additionally participates in
the junction pair `a`, `c`; the map holds exactly one relation for `a`, `b`
and each side's entity receives exactly one `omBs!:`/`omAs!:` property
line. -/
theorem zorm_c4_amended_witness :
    ltChars "a".data "b".data = true ∧
    ((junctionTables catY).countP (fun e => e.2.left == "a" && e.2.right == "b") = 1) ∧
    (tableState catY aT).entityCode.count (omLine "b") = 1 ∧
    (tableState catY bT).entityCode.count (omLine "a") = 1 := by
  have h := zorm_c4_amended catY "a" "b" aT bT joneT ⟨"x", "a", "id"⟩ ⟨"y", "b", "id"⟩
    rfl rfl (by decide) (by decide) (by decide) rfl (by decide)
    (by decide) (by decide) (by decide) (by decide) (by decide) (by decide) (by decide)
  exact ⟨by decide, h.1, h.2.1, h.2.2⟩

/-- Witness for C5 (amended): `geometry` takes the unknown-keyword path
(keyword kept as storage kind, no length), and `@#` takes the
regex-failure path (storage kind `text`). -/
theorem zorm_c5_amended_witness :
    ((mapColumns "geometry").tsType = "any" ∧
     (mapColumns "geometry").columnType = String.mk ("geometry".data.map Char.toLower) ∧
     (mapColumns "geometry").length = none) ∧
    mapColumns "@#" = ⟨"any", "text", none, none, none⟩ :=
  ⟨⟨(zorm_c5_amended.1 "geometry" "geometry".data [] (by decide) (by decide) (by decide)
      (by decide)).1,
    (zorm_c5_amended.1 "geometry" "geometry".data [] (by decide) (by decide) (by decide)
      (by decide)).2.1,
    (zorm_c5_amended.1 "geometry" "geometry".data [] (by decide) (by decide) (by decide)
      (by decide)).2.2.1 (by decide)⟩,
   zorm_c5_amended.2 "@#" "@#".data (by decide) (by decide)⟩

/-- Witness for C6 (amended): the literals `a`, `b`, `2` round-trip exactly
and in order, and their member names (`A`, `B`, `val2`) are valid
identifiers. -/
theorem zorm_c6_amended_witness :
    (mapColumns (mkEnumType ["a", "b", "2"])).columnType = "enum" ∧
    (mapColumns (mkEnumType ["a", "b", "2"])).enumValues = some ["a", "b", "2"] ∧
    memberName "2" = "val" ++ "2" ∧ validIdent (memberName "2") = true ∧
    validIdent (memberName "a") = true := by
  have h := zorm_c6_amended ["a", "b", "2"] (by decide) (by decide)
  exact ⟨h.1, h.2.1, (h.2.2.2.1 "2" (by decide) (by decide)).1,
    (h.2.2.2.1 "2" (by decide) (by decide)).2,
    h.2.2.2.2 "a" 'a' [] (by decide) (by decide) (by decide) (by decide)⟩

/-- Witness for C8: in `cat8` the primary-key-less table `logs` still gets
its file, raises the warning, and `customer` is also emitted; the run
produces all three files. -/
theorem zorm_c8_witness :
    ("logs.ts", tableCode cat8 noPkT "TS") ∈ (generate cat8 "TS").files ∧
    warnMsg "logs" ∈ (generate cat8 "TS").warnings ∧
    ("customer.ts", tableCode cat8 customerT "TS") ∈ (generate cat8 "TS").files ∧
    (generate cat8 "TS").files.length = 3 := by
  have h := zorm_c8_no_primary_warning cat8 "TS" noPkT (by decide) (by decide)
  exact ⟨h.1, h.2.1, h.2.2.1 customerT (by decide), h.2.2.2⟩

/-- Witness for C10 (amended): `int(11)` yields no length, `varchar(7)`
yields the explicit 7, and the defaults are 255 and 1. -/
theorem zorm_c10_amended_witness :
    (mapColumns "int(11)").length = none ∧
    (mapColumns "varchar(7)").length = some 7 ∧
    (mapColumns "varchar").length = some 255 ∧
    (mapColumns "char").length = some 1 :=
  ⟨(zorm_c10_amended.1 "int(11)" "int".data "(11)".data (by decide) (by decide)
      (by decide)).1 (by decide),
   (zorm_c10_amended.1 "varchar(7)" "varchar".data "(7)".data (by decide) (by decide)
      (by decide)).2.1 7 (by decide) (by decide) (by decide),
   zorm_c10_amended.2.1, zorm_c10_amended.2.2⟩
end Zorm
